import Mathlib

/-!
Verification of the AWS access-key lister (`main.go`, `csv.go`, `logger.go`).

The development shallowly embeds the program's pure logic:
* CSV record validation and ARN construction (`validateCSVAccountRoleData`,
  `getRoleARN`, `getAccountId`);
* the two pagination loops (`ListUsers` in `main`, `ListAccessKeys` in
  `worker`), modelled over the sequence of responses the backend returns
  along the cursor chain;
* the per-item worker body, the fan-in aggregation loop and the CSV report
  writer;
* a whole-run model `runApp` that also tracks the number of remote calls
  performed and whether the output file was created, with fatal log events
  modelled as structured values;
* a small-step interleaving model of the worker pool for the concurrency
  claims.
-/

namespace AccessKeyLister

/-! ## CSV input handling (csv.go) -/

/-- Embeds `validateCSVAccountRoleData` (csv.go).  A `nil`/empty Go slice is
modelled by the empty list.  The Go function rejects empty records, records
whose field count is not 2, and records whose first field is not 12
characters long; the error message interpolates the offending identifier. -/
def validateCSVAccountRoleData (record : List String) : Except String Unit :=
  match record with
  | [] => .error "account role must contain some data"
  | accountId :: _ =>
    if record.length ≠ 2 then
      .error ("validation failed for account " ++ accountId ++
        ", the number of data for this account is not 2 columns")
    else if accountId.length ≠ 12 then
      .error ("validation failed for account " ++ accountId ++
        ", the account id must be 12 characters")
    else
      .ok ()

/-- Embeds the validation loop of `getAccountRoleListFromCSV` (csv.go): every
record of the file is validated in order; the first failure aborts with that
record's validation error, otherwise all records are returned. -/
def validateAll : List (List String) → Except String (List (List String))
  | [] => .ok []
  | r :: rest =>
    match validateCSVAccountRoleData r with
    | .error e => .error e
    | .ok () =>
      match validateAll rest with
      | .error e => .error e
      | .ok more => .ok (r :: more)

/-- Embeds `getRoleARN` (csv.go): `arn:aws:iam::{accountId}:role/{roleName}`. -/
def getRoleARN (accountRoleData : List String) : String :=
  "arn:aws:iam::" ++ accountRoleData.headD "" ++ ":role/" ++
    (accountRoleData.getD 1 "")

/-- Embeds `getAccountId` (csv.go): the first field of the record. -/
def getAccountId (accountRoleData : List String) : String :=
  accountRoleData.headD ""

/-! ## Timestamps

`worker` renders each key's creation date with Go's layout
`2006-01-02T15:04:05-07:00`, i.e. four-digit year, two-digit fields, and a
signed `hh:mm` zone offset. -/

/-- A broken-down time value, standing for Go's `time.Time` as far as the
layout `2006-01-02T15:04:05-07:00` observes it. -/
structure GoTime where
  year : Nat
  month : Nat
  day : Nat
  hour : Nat
  minute : Nat
  second : Nat
  offNeg : Bool
  offH : Nat
  offM : Nat
deriving DecidableEq, Repr

/-- Two-digit zero-padded decimal rendering (Go layout components `01`,
`02`, `15`, `04`, `05`, `07`, `00`). -/
def pad2 (n : Nat) : String :=
  if n < 10 then "0" ++ toString n else toString n

/-- Four-digit zero-padded decimal rendering (Go layout component `2006`),
for years below 10000. -/
def pad4 (n : Nat) : String :=
  pad2 (n / 100) ++ pad2 (n % 100)

/-- Embeds `ak.CreateDate.Format("2006-01-02T15:04:05-07:00")` (main.go,
`worker`). -/
def isoRender (t : GoTime) : String :=
  pad4 t.year ++ "-" ++ pad2 t.month ++ "-" ++ pad2 t.day ++ "T" ++
    pad2 t.hour ++ ":" ++ pad2 t.minute ++ ":" ++ pad2 t.second ++
    (if t.offNeg then "-" else "+") ++ pad2 t.offH ++ ":" ++ pad2 t.offM

/-- Field bounds under which the layout produces well-shaped output. -/
def validTime (t : GoTime) : Prop :=
  t.year < 10000 ∧ t.month < 100 ∧ t.day < 100 ∧ t.hour < 100 ∧
    t.minute < 100 ∧ t.second < 100 ∧ t.offH < 100 ∧ t.offM < 100

/-- Checks that a string has the ISO-8601-with-offset shape
`YYYY-MM-DDThh:mm:ss±hh:mm`: 25 characters, digits everywhere except the
fixed separators, and a sign before the offset. -/
def isISO8601WithOffset (s : String) : Bool :=
  match s.data with
  | [y1, y2, y3, y4, s1, mo1, mo2, s2, d1, d2, tt, h1, h2, c1, mi1, mi2,
     c2, se1, se2, sg, o1, o2, c3, p1, p2] =>
    [y1, y2, y3, y4, mo1, mo2, d1, d2, h1, h2, mi1, mi2, se1, se2,
      o1, o2, p1, p2].all Char.isDigit &&
    s1 == '-' && s2 == '-' && tt == 'T' && c1 == ':' && c2 == ':' &&
    (sg == '+' || sg == '-') && c3 == ':'
  | _ => false

/-! ## Data model (main.go) -/

/-- Embeds `types.AccessKeyMetadata` as far as the program reads it:
`AccessKeyId` and `CreateDate`. -/
structure AccessKeyMeta where
  accessKeyId : String
  createDate : GoTime
deriving DecidableEq, Repr

/-- Embeds the `accessKey` struct (main.go): key id and the already
rendered creation date. -/
structure AccessKey where
  keyId : String
  createdDate : String
deriving DecidableEq, Repr

/-- Embeds `inputUser` (main.go).  The `iamClient` handle is represented by
keying backend responses on `accountId` instead of carrying a client. -/
structure InputUser where
  name : String
  accountId : String
deriving DecidableEq, Repr

/-- Embeds `outputUser` (main.go). -/
structure OutputUser where
  name : String
  accountId : String
  accessKeys : List AccessKey
deriving DecidableEq, Repr

/-- One `ListUsers` response: the page's user names and `IsTruncated`.  The
marker is left implicit: a chain of responses is modelled as the list of
pages the backend returns as the cursor is followed. -/
structure UsersPage where
  users : List String
  isTruncated : Bool
deriving DecidableEq, Repr

/-- One `ListAccessKeys` response: the page's key metadata and
`IsTruncated`. -/
structure KeysPage where
  keys : List AccessKeyMeta
  isTruncated : Bool
deriving DecidableEq, Repr

/-! ## Pagination loops -/

/-- Embeds the `ListUsers` loop of `main` (main.go lines 116-135) on a
failure-free response chain.  Returns the accumulated user names and the
number of pages fetched.  The loop always appends the page's users and
continues exactly when `IsTruncated` is set. -/
def listUsersLoop : List UsersPage → List String × Nat
  | [] => ([], 0)
  | p :: rest =>
    if p.isTruncated then
      let r := listUsersLoop rest
      (p.users ++ r.1, r.2 + 1)
    else
      (p.users, 1)

/-- Embeds the `ListAccessKeys` loop of `worker` (main.go lines 183-220) on
a failure-free response chain.  A page with a non-empty item list is
accumulated and the loop continues exactly when `IsTruncated` is set; a page
with an empty item list breaks out immediately, even when `IsTruncated` is
set, keeping only what was accumulated before it. -/
def listAccessKeysLoop : List KeysPage → List AccessKeyMeta
  | [] => []
  | p :: rest =>
    if p.keys ≠ [] then
      if p.isTruncated then p.keys ++ listAccessKeysLoop rest
      else p.keys
    else []

/-- Embeds the conversion in `worker` from `types.AccessKeyMetadata` to the
program's `accessKey` rows: the key id is copied and the creation date is
rendered with the fixed layout. -/
def convertKey (ak : AccessKeyMeta) : AccessKey :=
  { keyId := ak.accessKeyId, createdDate := isoRender ak.createDate }

/-- Embeds the body of `worker` for one `inputUser` (main.go lines 176-248):
run the key-listing loop; if any metadata was accumulated, emit a `some`
(`Found`) outcome carrying the converted keys, otherwise emit `none` (the
explicit `nil` sent on the result channel).  `kp` gives each user's
response chain. -/
def processUser (kp : InputUser → List KeysPage) (u : InputUser) :
    Option OutputUser :=
  let metas := listAccessKeysLoop (kp u)
  if metas ≠ [] then
    some { name := u.name, accountId := u.accountId,
           accessKeys := metas.map convertKey }
  else
    none

/-- One worker draining its share of the queue: one outcome per item. -/
def workerRun (kp : InputUser → List KeysPage) (queue : List InputUser) :
    List (Option OutputUser) :=
  queue.map (processUser kp)

/-- Embeds the aggregation loop of `main` (lines 155-161): perform exactly
`n` receives from the arrival stream and keep the non-`nil` outcomes in
arrival order. -/
def aggregateReceives (n : Nat) (arrival : List (Option OutputUser)) :
    List OutputUser :=
  (arrival.take n).filterMap id

/-- Embeds the row construction of `writeRecordsToCSV` (csv.go lines
90-98): accountId, userName, then one (keyId, createdDate) pair per key. -/
def userRecord (u : OutputUser) : List String :=
  [u.accountId, u.name] ++ (u.accessKeys.map (fun k => [k.keyId, k.createdDate])).flatten

/-- Embeds `writeRecordsToCSV` (csv.go): one CSV row per aggregated user. -/
def writeRows (userList : List OutputUser) : List (List String) :=
  userList.map userRecord

/-- The report rows produced for a list of work items under the canonical
(sequential) schedule: worker outcomes, aggregated, then written. -/
def reportRows (kp : InputUser → List KeysPage) (items : List InputUser) :
    List (List String) :=
  writeRows ((workerRun kp items).filterMap id)

/-! ## Whole-run model

`main` logs fatal events through `zap` (a message plus structured fields)
or, in `worker`, through `log.Fatalf` (a formatted message).  A fatal event
is modelled as a message together with its field list; process termination
is modelled by the run returning the event as an error. -/

/-- A fatal log event: the message and the structured fields attached. -/
structure FatalLog where
  msg : String
  fields : List (String × String)
deriving DecidableEq, Repr

/-- The remote collaborators, as deterministic response tables.
`assumeRole` is keyed by the role ARN the program builds; the two page
tables give, per account (and user), the chain of responses returned as the
cursor is followed, each possibly a failure. -/
structure Backend where
  assumeRole : String → Except String Unit
  userPages : String → List (Except String UsersPage)
  keyPages : String → String → List (Except String KeysPage)

/-- The `ListUsers` loop of `main` with the fatal path (main.go lines
116-135): a failing page fetch aborts the loop.  Also counts the fetches
performed (the failing one included). -/
def enumUsersPages : List (Except String UsersPage) →
    Except String (List String) × Nat
  | [] => (.ok [], 0)
  | .error e :: _ => (.error e, 1)
  | .ok p :: rest =>
    if p.isTruncated then
      match enumUsersPages rest with
      | (.error e, n) => (.error e, n + 1)
      | (.ok us, n) => (.ok (p.users ++ us), n + 1)
    else
      (.ok p.users, 1)

/-- The `ListAccessKeys` loop of `worker` with the fatal path (main.go
lines 183-220), counting fetches. -/
def workerKeysPages : List (Except String KeysPage) →
    Except String (List AccessKeyMeta) × Nat
  | [] => (.ok [], 0)
  | .error e :: _ => (.error e, 1)
  | .ok p :: rest =>
    if p.keys ≠ [] then
      if p.isTruncated then
        match workerKeysPages rest with
        | (.error e, n) => (.error e, n + 1)
        | (.ok ks, n) => (.ok (p.keys ++ ks), n + 1)
      else
        (.ok p.keys, 1)
    else
      (.ok [], 1)

/-- The fatal event `main` emits when `AssumeRole` fails (main.go lines
90-95): message plus the role ARN and error fields. -/
def assumeRoleFatal (roleARN e : String) : FatalLog :=
  { msg := "error when doing assume role",
    fields := [("role_arn", roleARN), ("error", e)] }

/-- The fatal event `main` emits when a `ListUsers` page fetch fails
(main.go lines 118-120): only the error is attached. -/
def listUsersFatal (e : String) : FatalLog :=
  { msg := "error when listing user", fields := [("error", e)] }

/-- The fatal event `worker` emits when a `ListAccessKeys` page fetch fails
(main.go line 191, `log.Fatalf`): the error is interpolated into the
message and no structured field is attached. -/
def listKeysFatal (e : String) : FatalLog :=
  { msg := "error when listing access key, " ++ e, fields := [] }

/-- The enumeration phase of `main` (lines 79-136): per record, build the
role ARN, assume the role, then run the user-listing loop, turning every
discovered user into an `inputUser`.  Returns the flat item list (or the
first fatal event) and the number of remote calls performed. -/
def enumAccounts (be : Backend) : List (List String) →
    Except FatalLog (List InputUser) × Nat
  | [] => (.ok [], 0)
  | record :: rest =>
    let accountId := getAccountId record
    let roleARN := getRoleARN record
    match be.assumeRole roleARN with
    | .error e => (.error (assumeRoleFatal roleARN e), 1)
    | .ok () =>
      match enumUsersPages (be.userPages accountId) with
      | (.error e, n) => (.error (listUsersFatal e), 1 + n)
      | (.ok names, n) =>
        match enumAccounts be rest with
        | (.error f, m) => (.error f, 1 + n + m)
        | (.ok more, m) =>
          (.ok (names.map (fun nm => { name := nm, accountId := accountId }) ++ more),
            1 + n + m)

/-- The key-fetch phase over all items, under the canonical sequential
schedule: one outcome per item, aborting at the first fatal event, counting
remote calls. -/
def processItems (be : Backend) : List InputUser →
    Except FatalLog (List (Option OutputUser)) × Nat
  | [] => (.ok [], 0)
  | u :: rest =>
    match workerKeysPages (be.keyPages u.accountId u.name) with
    | (.error e, n) => (.error (listKeysFatal e), n)
    | (.ok metas, n) =>
      let outcome : Option OutputUser :=
        if metas ≠ [] then
          some { name := u.name, accountId := u.accountId,
                 accessKeys := metas.map convertKey }
        else none
      match processItems be rest with
      | (.error f, m) => (.error f, n + m)
      | (.ok outs, m) => (.ok (outcome :: outs), n + m)

/-- Observable result of one run: the written rows (or the fatal event),
the number of remote calls performed, and whether the output file was
created.  `os.Create` happens only inside `writeRecordsToCSV`, which `main`
reaches only after the whole enumeration and key-fetch phases succeed. -/
structure RunOutput where
  result : Except FatalLog (List (List String))
  remoteCalls : Nat
  fileCreated : Bool
deriving Repr

/-- The whole run of `main`: read and validate the account list, enumerate
all accounts, drain the worker pool, aggregate, and write the report. -/
def runApp (records : List (List String)) (be : Backend) : RunOutput :=
  match validateAll records with
  | .error e =>
    { result := .error { msg := "error when reading account list file",
                         fields := [("error", e)] },
      remoteCalls := 0, fileCreated := false }
  | .ok recs =>
    match enumAccounts be recs with
    | (.error f, n) => { result := .error f, remoteCalls := n, fileCreated := false }
    | (.ok items, n) =>
      match processItems be items with
      | (.error f, m) =>
        { result := .error f, remoteCalls := n + m, fileCreated := false }
      | (.ok outs, m) =>
        { result := .ok (writeRows (outs.filterMap id)),
          remoteCalls := n + m, fileCreated := true }

/-! ## Worker-pool small-step model

`main` spawns `W` workers over one buffered work channel and one result
channel (lines 140-151).  The model is an interleaving machine: the
producer (`main`) sends items and closes the queue, each worker repeatedly
takes one item, processes it, emits one outcome, and exits when it observes
the closed, drained queue. -/

/-- Status of one worker goroutine: blocked on the queue, processing one
item (one key-listing operation in flight), or exited from its range loop. -/
inductive WStatus (ι : Type) where
  | idle : WStatus ι
  | busy : ι → WStatus ι
  | done : WStatus ι
deriving DecidableEq, Repr

/-- Global state of the fan-out/fan-in machinery. -/
structure PoolState (ι : Type) where
  toSend : List ι
  queue : List ι
  closed : Bool
  workers : List (WStatus ι)
  processed : List ι
  emitted : Nat
deriving Repr

/-- Interleaved transitions of producer and workers.  Worker identity is
positional: a step rewrites one worker's status in place. -/
inductive PoolStep (ι : Type) : PoolState ι → PoolState ι → Prop where
  | send (s : PoolState ι) (i : ι) (rest : List ι) :
      s.toSend = i :: rest →
      PoolStep ι s { s with toSend := rest, queue := s.queue ++ [i] }
  | close (s : PoolState ι) :
      s.toSend = [] → s.closed = false →
      PoolStep ι s { s with closed := true }
  | take (s : PoolState ι) (pre post : List (WStatus ι)) (i : ι) (q : List ι) :
      s.workers = pre ++ WStatus.idle :: post → s.queue = i :: q →
      PoolStep ι s { s with queue := q, workers := pre ++ WStatus.busy i :: post }
  | finish (s : PoolState ι) (pre post : List (WStatus ι)) (i : ι) :
      s.workers = pre ++ WStatus.busy i :: post →
      PoolStep ι s { s with workers := pre ++ WStatus.idle :: post,
                            processed := s.processed ++ [i],
                            emitted := s.emitted + 1 }
  | exit (s : PoolState ι) (pre post : List (WStatus ι)) :
      s.workers = pre ++ WStatus.idle :: post →
      s.closed = true → s.queue = [] →
      PoolStep ι s { s with workers := pre ++ WStatus.done :: post }

/-- Initial state: all items pending with the producer, queue empty and
open, `W` idle workers, nothing processed. -/
def initPool (ι : Type) (items : List ι) (W : Nat) : PoolState ι :=
  { toSend := items, queue := [], closed := false,
    workers := List.replicate W WStatus.idle, processed := [], emitted := 0 }

/-- States reachable from the initial state by interleaved steps. -/
def PoolReachable (ι : Type) (items : List ι) (W : Nat) (s : PoolState ι) : Prop :=
  Relation.ReflTransGen (PoolStep ι) (initPool ι items W) s

/-- The item a worker currently holds, if busy. -/
def statusItem {ι : Type} : WStatus ι → Option ι
  | WStatus.busy i => some i
  | _ => none

/-- The items currently being processed (in flight). -/
def busyItems {ι : Type} (ws : List (WStatus ι)) : List ι :=
  ws.filterMap statusItem

/-- The number of key-listing operations in flight. -/
def busyCount {ι : Type} (s : PoolState ι) : Nat :=
  (busyItems s.workers).length

/-! ## Helper lemmas -/

/-- The user-listing loop over a chain whose every page except the last
carries the truncation marker: every page's users are accumulated in page
order and every page is fetched. -/
theorem listUsersLoop_append_front (front : List UsersPage) (lastP : UsersPage)
    (hfront : ∀ p ∈ front, p.isTruncated = true)
    (hlast : lastP.isTruncated = false) :
    listUsersLoop (front ++ [lastP]) =
      ((front.map UsersPage.users).flatten ++ lastP.users, front.length + 1) := by
  induction front with
  | nil => simp [listUsersLoop, hlast]
  | cons p ps ih =>
    have hp : p.isTruncated = true := hfront p (by simp)
    have hih := ih (fun q hq => hfront q (by simp [hq]))
    simp [listUsersLoop, hp, hih]

/-- The key-listing loop over a chain whose every page except possibly the
last is truncated and non-empty: all pages' keys are concatenated in page
order (the last page may be empty, in which case it contributes nothing). -/
theorem listAccessKeysLoop_append_front (front : List KeysPage) (lastP : KeysPage)
    (hfront : ∀ p ∈ front, p.isTruncated = true ∧ p.keys ≠ [])
    (hlast : lastP.isTruncated = false) :
    listAccessKeysLoop (front ++ [lastP]) =
      ((front ++ [lastP]).map KeysPage.keys).flatten := by
  induction front with
  | nil =>
    by_cases h : lastP.keys = [] <;>
      simp [listAccessKeysLoop, hlast, h]
  | cons p ps ih =>
    have hp := hfront p (by simp)
    have hih := ih (fun q hq => hfront q (by simp [hq]))
    simp [listAccessKeysLoop, hp.1, hp.2, hih]

/-- The key-listing loop stops at the first empty page, even when that page
carries the truncation marker: only the pages before it contribute. -/
theorem listAccessKeysLoop_stops_at_empty (front : List KeysPage) (p : KeysPage)
    (rest : List KeysPage)
    (hfront : ∀ q ∈ front, q.isTruncated = true ∧ q.keys ≠ [])
    (hempty : p.keys = []) :
    listAccessKeysLoop (front ++ p :: rest) = (front.map KeysPage.keys).flatten := by
  induction front with
  | nil => simp [listAccessKeysLoop, hempty]
  | cons q qs ih =>
    have hq := hfront q (by simp)
    have hih := ih (fun q2 hq2 => hfront q2 (by simp [hq2]))
    simp [listAccessKeysLoop, hq.1, hq.2, hih]

/-- A well-formed key-listing response chain: all pages before the last are
truncated and non-empty, and the last page is not truncated. -/
def goodChain (pages : List KeysPage) : Prop :=
  ∃ front lastP, pages = front ++ [lastP] ∧
    (∀ p ∈ front, p.isTruncated = true ∧ p.keys ≠ []) ∧
    lastP.isTruncated = false

/-- Over a well-formed chain the key-listing loop accumulates exactly the
concatenation of all pages' keys. -/
theorem listAccessKeysLoop_of_goodChain (pages : List KeysPage)
    (h : goodChain pages) :
    listAccessKeysLoop pages = (pages.map KeysPage.keys).flatten := by
  obtain ⟨front, lastP, rfl, hfront, hlast⟩ := h
  exact listAccessKeysLoop_append_front front lastP hfront hlast

/-- `validateCSVAccountRoleData` accepts exactly the records with two
fields whose first field has length 12. -/
theorem validateCSV_ok_iff (rec : List String) :
    validateCSVAccountRoleData rec = .ok () ↔
      (rec.length = 2 ∧ (rec.headD "").length = 12) := by
  cases rec with
  | nil => simp [validateCSVAccountRoleData]
  | cons a rest =>
    simp only [validateCSVAccountRoleData, List.headD_cons]
    split_ifs with h2 h12
    · refine iff_of_false (by simp) ?_
      rintro ⟨hl, _⟩
      exact h2 hl
    · exact iff_of_false (by simp) (fun h => h12 h.2)
    · simp only [not_not] at h2 h12
      exact iff_of_true rfl ⟨h2, h12⟩

/-- A failing validation of a non-empty record produces a message in which
the record's first field occurs verbatim. -/
theorem validateCSV_error_mentions_id (rec : List String) (m : String)
    (hne : rec ≠ []) (he : validateCSVAccountRoleData rec = .error m) :
    (rec.headD "").data <:+: m.data := by
  cases rec with
  | nil => exact absurd rfl hne
  | cons a rest =>
    unfold validateCSVAccountRoleData at he
    by_cases h2 : (a :: rest).length = 2
    · by_cases h12 : a.length = 12
      · simp [h2, h12] at he
      · simp only [h2, h12, ite_false, ite_true, ne_eq, not_true_eq_false,
          not_false_eq_true, if_neg, if_pos] at he
        simp only [List.headD_cons]
        cases he
        refine ⟨("validation failed for account ").data,
          (", the account id must be 12 characters").data, ?_⟩
        simp [String.data_append]
    · simp only [h2, ne_eq, not_false_eq_true, ite_true, if_pos] at he
      simp only [List.headD_cons]
      cases he
      refine ⟨("validation failed for account ").data,
        (", the number of data for this account is not 2 columns").data, ?_⟩
      simp [String.data_append]

/-- If some record of the list fails validation, the whole read fails with
the validation error of some (the first) failing record. -/
theorem validateAll_error_of_bad (records : List (List String))
    (r0 : List String) (h0 : r0 ∈ records)
    (hbad : validateCSVAccountRoleData r0 ≠ .ok ()) :
    ∃ m bad, validateAll records = .error m ∧ bad ∈ records ∧
      validateCSVAccountRoleData bad = .error m := by
  induction records with
  | nil => cases h0
  | cons r rest ih =>
    cases hv : validateCSVAccountRoleData r with
    | error e => exact ⟨e, r, by simp [validateAll, hv], by simp, hv⟩
    | ok u =>
      cases u
      rcases List.mem_cons.mp h0 with h | h
      · exact absurd (h ▸ hv) hbad
      · obtain ⟨m, bad, hall, hmem, hbadv⟩ := ih h
        exact ⟨m, bad, by simp [validateAll, hv, hall], by simp [hmem], hbadv⟩

/-- If every record passes validation, the read returns the records. -/
theorem validateAll_ok (records : List (List String))
    (h : ∀ r ∈ records, validateCSVAccountRoleData r = .ok ()) :
    validateAll records = .ok records := by
  induction records with
  | nil => rfl
  | cons r rest ih =>
    have hr := h r (by simp)
    have hrest := ih (fun q hq => h q (by simp [hq]))
    simp [validateAll, hr, hrest]

/-- The outcome stream gathered across any assignment of items to workers
is, up to arrival order, the per-item outcome of every item. -/
theorem poolOutcomes_perm (kp : InputUser → List KeysPage)
    (assignment : List (List InputUser)) (items : List InputUser)
    (hperm : assignment.flatten.Perm items) :
    ((assignment.map (workerRun kp)).flatten).Perm (items.map (processUser kp)) := by
  have hfun : workerRun kp = List.map (processUser kp) := by
    funext q
    rfl
  rw [hfun, ← List.map_flatten]
  exact hperm.map _

/-- Length of a concatenation of lists of one common length. -/
theorem flatten_length_of_const {α : Type} (L : List (List α)) (k : Nat)
    (h : ∀ l ∈ L, l.length = k) : L.flatten.length = L.length * k := by
  induction L with
  | nil => simp
  | cons l ls ih =>
    have hl := h l (by simp)
    have hih := ih (fun q hq => h q (by simp [hq]))
    simp [hl, hih, Nat.succ_mul, Nat.add_comm]

/-! ## Claims -/

/-- C4: the user-listing pagination traversal, over `N` pages each yielding
`k` users where every page except the last is truncated, accumulates
exactly `N * k` users and fetches exactly `N` pages; it keeps fetching when
a page is empty but truncated; it terminates on the first page lacking the
truncation marker regardless of its item count; and a single untruncated
empty page yields zero users after exactly one fetch. -/
theorem c4_users_pagination (front : List UsersPage) (lastP : UsersPage) (k : Nat)
    (hfront : ∀ p ∈ front, p.isTruncated = true)
    (hlast : lastP.isTruncated = false)
    (hk : ∀ p ∈ front ++ [lastP], p.users.length = k) :
    (listUsersLoop (front ++ [lastP])).1.length = (front ++ [lastP]).length * k ∧
    (listUsersLoop (front ++ [lastP])).2 = (front ++ [lastP]).length ∧
    (∀ (p : UsersPage) (rest : List UsersPage),
      p.isTruncated = true → p.users = [] →
      listUsersLoop (p :: rest) =
        ((listUsersLoop rest).1, (listUsersLoop rest).2 + 1)) ∧
    (∀ (p : UsersPage) (rest : List UsersPage), p.isTruncated = false →
      listUsersLoop (p :: rest) = (p.users, 1)) ∧
    listUsersLoop [{ users := [], isTruncated := false }] = ([], 1) := by
  have hloop := listUsersLoop_append_front front lastP hfront hlast
  refine ⟨?_, ?_, ?_, ?_, ?_⟩
  · rw [hloop]
    have hlen : ((front.map UsersPage.users).flatten).length = front.length * k := by
      have := flatten_length_of_const (front.map UsersPage.users) k
        (by intro l hl
            obtain ⟨p, hp, rfl⟩ := List.mem_map.mp hl
            exact hk p (by simp [hp]))
      simpa using this
    have hlast2 : lastP.users.length = k := hk lastP (by simp)
    simp [hlen, hlast2, Nat.succ_mul]
  · rw [hloop]
    simp
  · intro p rest hp hnil
    simp [listUsersLoop, hp, hnil]
  · intro p rest hp
    simp [listUsersLoop, hp]
  · rfl

/-- A concrete truncated first page with one user, for the C4 witness. -/
def sampleUsersFront : List UsersPage := [{ users := ["a"], isTruncated := true }]

/-- A concrete final page with one user, for the C4 witness. -/
def sampleUsersLast : UsersPage := { users := ["b"], isTruncated := false }

/-- Witness for `c4_users_pagination` at a concrete two-page chain. -/
theorem c4_users_pagination_witness :
    (listUsersLoop (sampleUsersFront ++ [sampleUsersLast])).1.length =
      (sampleUsersFront ++ [sampleUsersLast]).length * 1 ∧
    (listUsersLoop (sampleUsersFront ++ [sampleUsersLast])).2 =
      (sampleUsersFront ++ [sampleUsersLast]).length ∧
    (∀ (p : UsersPage) (rest : List UsersPage),
      p.isTruncated = true → p.users = [] →
      listUsersLoop (p :: rest) =
        ((listUsersLoop rest).1, (listUsersLoop rest).2 + 1)) ∧
    (∀ (p : UsersPage) (rest : List UsersPage), p.isTruncated = false →
      listUsersLoop (p :: rest) = (p.users, 1)) ∧
    listUsersLoop [{ users := [], isTruncated := false }] = ([], 1) :=
  c4_users_pagination sampleUsersFront sampleUsersLast 1
    (by intro p hp; simp [sampleUsersFront] at hp; simp [hp])
    rfl
    (by
      intro p hp
      simp [sampleUsersFront, sampleUsersLast] at hp
      rcases hp with h | h <;> simp [h])

/-- C9: validation checks only the length of the account identifier, not
its content: every two-field record whose first field is any 12-character
string passes validation, the run builds the fixed-shape ARN from that
identifier, and the ARN is what reaches the `AssumeRole` call. -/
theorem c9_length_only_validation (a r : String) (ha : a.length = 12) :
    validateCSVAccountRoleData [a, r] = .ok () ∧
    getRoleARN [a, r] = "arn:aws:iam::" ++ a ++ ":role/" ++ r ∧
    (∀ (be : Backend) (e : String),
      be.assumeRole (getRoleARN [a, r]) = .error e →
      (runApp [[a, r]] be).result =
        .error (assumeRoleFatal (getRoleARN [a, r]) e) ∧
      (runApp [[a, r]] be).remoteCalls = 1) := by
  have hok : validateCSVAccountRoleData [a, r] = .ok () :=
    (validateCSV_ok_iff [a, r]).mpr (by simp [ha])
  refine ⟨hok, by simp [getRoleARN], ?_⟩
  intro be e hfail
  have hval : validateAll [[a, r]] = .ok [[a, r]] :=
    validateAll_ok _ (by intro q hq; simp at hq; simp [hq, hok])
  simp [runApp, hval, enumAccounts, hfail]

/-- Witness for `c9_length_only_validation` at the non-numeric identifier
`abcdefghijkl`. -/
theorem c9_length_only_validation_witness :
    validateCSVAccountRoleData ["abcdefghijkl", "ReadOnly"] = .ok () ∧
    getRoleARN ["abcdefghijkl", "ReadOnly"] =
      "arn:aws:iam::" ++ "abcdefghijkl" ++ ":role/" ++ "ReadOnly" ∧
    (∀ (be : Backend) (e : String),
      be.assumeRole (getRoleARN ["abcdefghijkl", "ReadOnly"]) = .error e →
      (runApp [["abcdefghijkl", "ReadOnly"]] be).result =
        .error (assumeRoleFatal (getRoleARN ["abcdefghijkl", "ReadOnly"]) e) ∧
      (runApp [["abcdefghijkl", "ReadOnly"]] be).remoteCalls = 1) :=
  c9_length_only_validation "abcdefghijkl" "ReadOnly" (by decide)

/-- C5: validation accepts a record exactly when it has two fields and a
12-character first field; when any record of the (non-empty-rowed) input is
malformed the whole run fails before any remote call is made, with a
validation error whose message names the offending identifier, and no
output file is created. -/
theorem c5_input_validation (records : List (List String)) (be : Backend)
    (r0 : List String) (h0 : r0 ∈ records)
    (hbad : ¬(r0.length = 2 ∧ (r0.headD "").length = 12))
    (hne : ∀ rec ∈ records, rec ≠ []) :
    (∀ rec : List String,
      validateCSVAccountRoleData rec = .ok () ↔
        (rec.length = 2 ∧ (rec.headD "").length = 12)) ∧
    (runApp records be).remoteCalls = 0 ∧
    (runApp records be).fileCreated = false ∧
    ∃ m, (runApp records be).result =
        .error { msg := "error when reading account list file",
                 fields := [("error", m)] } ∧
      ∃ bad, bad ∈ records ∧ validateCSVAccountRoleData bad = .error m ∧
        (bad.headD "").data <:+: m.data := by
  have hbadv : validateCSVAccountRoleData r0 ≠ .ok () := by
    intro h
    exact hbad ((validateCSV_ok_iff r0).mp h)
  obtain ⟨m, bad, hall, hmem, hbade⟩ := validateAll_error_of_bad records r0 h0 hbadv
  refine ⟨validateCSV_ok_iff, ?_, ?_, m, ?_, bad, hmem, hbade, ?_⟩
  · simp [runApp, hall]
  · simp [runApp, hall]
  · simp [runApp, hall]
  · exact validateCSV_error_mentions_id bad m (hne bad hmem) hbade

/-- Witness for `c5_input_validation`: the spec's malformed example row,
an 11-character identifier. -/
theorem c5_input_validation_witness :
    (∀ rec : List String,
      validateCSVAccountRoleData rec = .ok () ↔
        (rec.length = 2 ∧ (rec.headD "").length = 12)) ∧
    (runApp [["11111111111", "R1"]]
      { assumeRole := fun _ => .ok (), userPages := fun _ => [],
        keyPages := fun _ _ => [] }).remoteCalls = 0 ∧
    (runApp [["11111111111", "R1"]]
      { assumeRole := fun _ => .ok (), userPages := fun _ => [],
        keyPages := fun _ _ => [] }).fileCreated = false ∧
    ∃ m, (runApp [["11111111111", "R1"]]
        { assumeRole := fun _ => .ok (), userPages := fun _ => [],
          keyPages := fun _ _ => [] }).result =
        .error { msg := "error when reading account list file",
                 fields := [("error", m)] } ∧
      ∃ bad, bad ∈ [["11111111111", "R1"]] ∧
        validateCSVAccountRoleData bad = .error m ∧
        (bad.headD "").data <:+: m.data :=
  c5_input_validation [["11111111111", "R1"]]
    { assumeRole := fun _ => .ok (), userPages := fun _ => [],
      keyPages := fun _ _ => [] }
    ["11111111111", "R1"] (by simp) (by decide)
    (by intro rec hrec; simp at hrec; simp [hrec])

/-- C1: for any worker count `W ≥ 1` and any split of the submitted items
among the `W` workers, each worker emits exactly one outcome per item it
takes, the total number of outcomes equals the number of items submitted,
and the aggregator's `N` receives consume the whole outcome stream without
blocking, whatever the arrival order. -/
theorem c1_fanin_conservation (kp : InputUser → List KeysPage)
    (items : List InputUser) (W : Nat) (hW : 1 ≤ W)
    (assignment : List (List InputUser)) (hlen : assignment.length = W)
    (hperm : assignment.flatten.Perm items)
    (arrival : List (Option OutputUser))
    (harr : arrival.Perm ((assignment.map (workerRun kp)).flatten)) :
    (∀ q ∈ assignment, (workerRun kp q).length = q.length) ∧
    arrival.length = items.length ∧
    aggregateReceives items.length arrival = arrival.filterMap id := by
  have hout := poolOutcomes_perm kp assignment items hperm
  have hlen2 : arrival.length = items.length := by
    rw [harr.length_eq, hout.length_eq, List.length_map]
  refine ⟨?_, hlen2, ?_⟩
  · intro q _
    simp [workerRun]
  · rw [aggregateReceives, ← hlen2, List.take_length]

/-- A work item for the concrete witnesses. -/
def sampleUser : InputUser := { name := "alice", accountId := "111111111111" }

/-- A backend with no key pages, for the C1 witness. -/
def emptyKeyBackend : InputUser → List KeysPage := fun _ => []

/-- Witness for `c1_fanin_conservation`: one item, one worker. -/
theorem c1_fanin_conservation_witness :
    (∀ q ∈ [[sampleUser]], (workerRun emptyKeyBackend q).length = q.length) ∧
    (workerRun emptyKeyBackend [sampleUser]).length = [sampleUser].length ∧
    aggregateReceives [sampleUser].length (workerRun emptyKeyBackend [sampleUser]) =
      (workerRun emptyKeyBackend [sampleUser]).filterMap id :=
  c1_fanin_conservation emptyKeyBackend [sampleUser] 1 (by decide)
    [[sampleUser]] rfl (List.Perm.refl _)
    (workerRun emptyKeyBackend [sampleUser]) (by simp [workerRun])

/-- Items mapped to `none` contribute nothing: filtering them out of the
item list leaves the aggregated outcomes unchanged. -/
theorem filterMap_filter_of_none (kp : InputUser → List KeysPage)
    (u : InputUser) (hnone : processUser kp u = none) (items : List InputUser) :
    items.filterMap (processUser kp) =
      (items.filter (fun i => !(i == u))).filterMap (processUser kp) := by
  induction items with
  | nil => rfl
  | cons i is ih =>
    by_cases hi : i = u
    · subst hi
      simp [List.filter_cons, List.filterMap_cons, hnone, ih]
    · have hbeq : (i == u) = false := by simp [hi]
      cases hpi : processUser kp i <;>
        simp [List.filter_cons, List.filterMap_cons, hbeq, hpi, ih]

/-- C3: a user whose first key-listing page is empty is classified `Empty`
immediately, even when that page carries the truncation marker, and
contributes no row to the aggregated report for any worker count and any
arrival order. -/
theorem c3_empty_first_page (kp : InputUser → List KeysPage) (u : InputUser)
    (p : KeysPage) (rest : List KeysPage)
    (hp : kp u = p :: rest) (hempty : p.keys = [])
    (W : Nat) (hW : 1 ≤ W) (assignment : List (List InputUser))
    (hlen : assignment.length = W) (items : List InputUser)
    (hperm : assignment.flatten.Perm items)
    (arrival : List (Option OutputUser))
    (harr : arrival.Perm ((assignment.map (workerRun kp)).flatten)) :
    processUser kp u = none ∧
    (aggregateReceives items.length arrival).Perm
      (items.filterMap (processUser kp)) ∧
    items.filterMap (processUser kp) =
      (items.filter (fun i => !(i == u))).filterMap (processUser kp) := by
  have hnone : processUser kp u = none := by
    simp [processUser, hp, listAccessKeysLoop, hempty]
  have hout := poolOutcomes_perm kp assignment items hperm
  have hlen2 : arrival.length = items.length := by
    rw [harr.length_eq, hout.length_eq, List.length_map]
  refine ⟨hnone, ?_, filterMap_filter_of_none kp u hnone items⟩
  have htake : aggregateReceives items.length arrival = arrival.filterMap id := by
    rw [aggregateReceives, ← hlen2, List.take_length]
  rw [htake]
  have hstep : (items.map (processUser kp)).filterMap id
      = items.filterMap (processUser kp) := by
    rw [List.filterMap_map]
    rfl
  exact (harr.filterMap id).trans (hstep ▸ hout.filterMap id)

/-- A user whose first page is empty but truncated, for the C3 witness. -/
def emptyFirstPageBackend : InputUser → List KeysPage :=
  fun _ => [{ keys := [], isTruncated := true }]

/-- Witness for `c3_empty_first_page`: one item, one worker, the first page
empty with the truncation marker set. -/
theorem c3_empty_first_page_witness :
    processUser emptyFirstPageBackend sampleUser = none ∧
    (aggregateReceives [sampleUser].length
        (workerRun emptyFirstPageBackend [sampleUser])).Perm
      ([sampleUser].filterMap (processUser emptyFirstPageBackend)) ∧
    [sampleUser].filterMap (processUser emptyFirstPageBackend) =
      ([sampleUser].filter (fun i => !(i == sampleUser))).filterMap
        (processUser emptyFirstPageBackend) :=
  c3_empty_first_page emptyFirstPageBackend sampleUser
    { keys := [], isTruncated := true } [] rfl rfl
    1 (by decide) [[sampleUser]] rfl [sampleUser] (List.Perm.refl _)
    (workerRun emptyFirstPageBackend [sampleUser]) (by simp [workerRun])

/-- C2 (amended): for a user whose key-listing spans multiple pages, the
worker classifies the user `Found` with exactly the concatenation of all
pages' keys in page order — provided every page before the last is
truncated and non-empty — and the user's output row is accountId, userName
followed by that concatenation's (keyId, createdDate) pairs.  When some
intermediate page returns zero items together with a cursor, the traversal
instead stops there: only the pages before the first empty page
contribute. -/
theorem c2_page_concatenation (kp : InputUser → List KeysPage) (u : InputUser)
    (front : List KeysPage) (lastP : KeysPage)
    (hpg : kp u = front ++ [lastP])
    (hfront : ∀ p ∈ front, p.isTruncated = true ∧ p.keys ≠ [])
    (hlast : lastP.isTruncated = false) (hnonempty : lastP.keys ≠ []) :
    listAccessKeysLoop (kp u) = ((kp u).map KeysPage.keys).flatten ∧
    processUser kp u = some
      { name := u.name, accountId := u.accountId,
        accessKeys := (((kp u).map KeysPage.keys).flatten).map convertKey } ∧
    userRecord
      { name := u.name, accountId := u.accountId,
        accessKeys := (((kp u).map KeysPage.keys).flatten).map convertKey } =
      [u.accountId, u.name] ++
        ((((kp u).map KeysPage.keys).flatten).map
          (fun k => [k.accessKeyId, isoRender k.createDate])).flatten ∧
    (∀ (front2 : List KeysPage) (p : KeysPage) (rest : List KeysPage),
      (∀ q ∈ front2, q.isTruncated = true ∧ q.keys ≠ []) → p.keys = [] →
      listAccessKeysLoop (front2 ++ p :: rest) =
        (front2.map KeysPage.keys).flatten) := by
  have hloop : listAccessKeysLoop (kp u) = ((kp u).map KeysPage.keys).flatten := by
    rw [hpg]
    exact listAccessKeysLoop_append_front front lastP hfront hlast
  have hne : ((kp u).map KeysPage.keys).flatten ≠ [] := by
    rw [hpg]
    intro h
    rw [List.flatten_eq_nil_iff] at h
    exact hnonempty (h lastP.keys (by simp))
  refine ⟨hloop, ?_, ?_, listAccessKeysLoop_stops_at_empty⟩
  · simp [processUser, hloop, hne]
  · rw [userRecord]
    congr 2
    rw [List.map_map]
    rfl

/-- The constant creation time used by the concrete key pages. -/
def sampleTime : GoTime :=
  { year := 2024, month := 1, day := 1, hour := 0, minute := 0, second := 0,
    offNeg := false, offH := 0, offM := 0 }

/-- First concrete key. -/
def sampleKey1 : AccessKeyMeta := { accessKeyId := "AKIA1", createDate := sampleTime }

/-- Second concrete key. -/
def sampleKey2 : AccessKeyMeta := { accessKeyId := "AKIA2", createDate := sampleTime }

/-- A key-listing chain whose middle page is empty but truncated: the page
after it is never reached by the worker's loop. -/
def emptyMiddlePages : List KeysPage :=
  [{ keys := [sampleKey1], isTruncated := true },
   { keys := [], isTruncated := true },
   { keys := [sampleKey2], isTruncated := false }]

/-- Counterexample to C2 as stated: with a truncated-but-empty middle page
the worker stops at that page, so the accumulated keys are not the
concatenation of all pages' keys — the third page's key is dropped, and the
user is classified `Found` with the first page's key only. -/
theorem c2_page_concatenation_cex :
    listAccessKeysLoop emptyMiddlePages = [sampleKey1] ∧
    listAccessKeysLoop emptyMiddlePages ≠
      (emptyMiddlePages.map KeysPage.keys).flatten ∧
    processUser (fun _ => emptyMiddlePages) sampleUser =
      some { name := "alice", accountId := "111111111111",
             accessKeys := [convertKey sampleKey1] } := by
  refine ⟨rfl, by decide, rfl⟩

/-- A two-page all-non-empty chain for the C2 witness. -/
def twoPageBackend : InputUser → List KeysPage :=
  fun _ => [{ keys := [sampleKey1], isTruncated := true }] ++
    [{ keys := [sampleKey2], isTruncated := false }]

/-- Witness for `c2_page_concatenation` at a concrete two-page chain. -/
theorem c2_page_concatenation_witness :
    listAccessKeysLoop (twoPageBackend sampleUser) =
      ((twoPageBackend sampleUser).map KeysPage.keys).flatten ∧
    processUser twoPageBackend sampleUser = some
      { name := sampleUser.name, accountId := sampleUser.accountId,
        accessKeys :=
          (((twoPageBackend sampleUser).map KeysPage.keys).flatten).map convertKey } ∧
    userRecord
      { name := sampleUser.name, accountId := sampleUser.accountId,
        accessKeys :=
          (((twoPageBackend sampleUser).map KeysPage.keys).flatten).map convertKey } =
      [sampleUser.accountId, sampleUser.name] ++
        ((((twoPageBackend sampleUser).map KeysPage.keys).flatten).map
          (fun k => [k.accessKeyId, isoRender k.createDate])).flatten ∧
    (∀ (front2 : List KeysPage) (p : KeysPage) (rest : List KeysPage),
      (∀ q ∈ front2, q.isTruncated = true ∧ q.keys ≠ []) → p.keys = [] →
      listAccessKeysLoop (front2 ++ p :: rest) =
        (front2.map KeysPage.keys).flatten) :=
  c2_page_concatenation twoPageBackend sampleUser
    [{ keys := [sampleKey1], isTruncated := true }]
    { keys := [sampleKey2], isTruncated := false }
    rfl
    (by intro p hp; simp at hp; simp [hp, sampleKey1])
    rfl
    (by simp [sampleKey2])

/-- When every record is valid, every role assumption succeeds and every
account's user enumeration yields no users, the enumeration phase yields an
empty item list. -/
theorem enumAccounts_ok_nil (be : Backend) (records : List (List String))
    (hassume : ∀ r ∈ records, be.assumeRole (getRoleARN r) = .ok ())
    (husers : ∀ r ∈ records,
      (enumUsersPages (be.userPages (getAccountId r))).1 = .ok []) :
    (enumAccounts be records).1 = .ok [] := by
  induction records with
  | nil => rfl
  | cons r rest ih =>
    have ha := hassume r (by simp)
    have hu := husers r (by simp)
    have hih := ih (fun q hq => hassume q (by simp [hq]))
      (fun q hq => husers q (by simp [hq]))
    simp only [enumAccounts, ha]
    cases hpair : enumUsersPages (be.userPages (getAccountId r)) with
    | mk fst snd =>
      rw [hpair] at hu
      simp at hu
      subst hu
      cases hpair2 : enumAccounts be rest with
      | mk fst2 snd2 =>
        rw [hpair2] at hih
        simp at hih
        subst hih
        simp

/-- C10: a run that produces zero work items (no accounts, or accounts
whose user enumeration returns no users) completes successfully: the
aggregator consumes zero outcomes and the report writer still creates the
output file, with zero rows. -/
theorem c10_empty_report (records : List (List String)) (be : Backend)
    (hvalid : ∀ r ∈ records, validateCSVAccountRoleData r = .ok ())
    (hassume : ∀ r ∈ records, be.assumeRole (getRoleARN r) = .ok ())
    (husers : ∀ r ∈ records,
      (enumUsersPages (be.userPages (getAccountId r))).1 = .ok []) :
    (runApp records be).result = .ok [] ∧
    (runApp records be).fileCreated = true := by
  have hval := validateAll_ok records hvalid
  have henum := enumAccounts_ok_nil be records hassume husers
  cases hpair : enumAccounts be records with
  | mk fst snd =>
    rw [hpair] at henum
    simp at henum
    subst henum
    constructor <;>
      simp [runApp, hval, hpair, processItems, writeRows]

/-- Witness for `c10_empty_report`: the empty account list. -/
theorem c10_empty_report_witness :
    (runApp []
      { assumeRole := fun _ => .ok (), userPages := fun _ => [],
        keyPages := fun _ _ => [] }).result = .ok [] ∧
    (runApp []
      { assumeRole := fun _ => .ok (), userPages := fun _ => [],
        keyPages := fun _ _ => [] }).fileCreated = true :=
  c10_empty_report []
    { assumeRole := fun _ => .ok (), userPages := fun _ => [],
      keyPages := fun _ _ => [] }
    (by intro r hr; cases hr) (by intro r hr; cases hr) (by intro r hr; cases hr)

/-- C7 (amended): every remote-call failure is escalated without retry to
an immediate whole-process termination — after the failing call no further
remote call is made, later accounts are never contacted, and no report
file is produced.  The fatal message identifies the role ARN (hence the
account and role) for role-assumption failures only; user-listing and
key-listing failures carry just the operation name and the underlying
error, without the account/role/user context. -/
theorem c7_failure_escalation :
    (∀ (be : Backend) (a role e : String) (rest : List (List String)),
      a.length = 12 →
      (∀ r ∈ rest, validateCSVAccountRoleData r = .ok ()) →
      be.assumeRole (getRoleARN [a, role]) = .error e →
      runApp ([a, role] :: rest) be =
        { result := .error (assumeRoleFatal (getRoleARN [a, role]) e),
          remoteCalls := 1, fileCreated := false } ∧
      a.data <:+: (getRoleARN [a, role]).data ∧
      role.data <:+: (getRoleARN [a, role]).data) ∧
    (∀ (be : Backend) (a role e : String)
        (more : List (Except String UsersPage)) (rest : List (List String)),
      a.length = 12 →
      (∀ r ∈ rest, validateCSVAccountRoleData r = .ok ()) →
      be.assumeRole (getRoleARN [a, role]) = .ok () →
      be.userPages a = .error e :: more →
      runApp ([a, role] :: rest) be =
        { result := .error (listUsersFatal e),
          remoteCalls := 2, fileCreated := false }) ∧
    (∀ (be : Backend) (a role u e : String)
        (more : List (Except String KeysPage)),
      a.length = 12 →
      be.assumeRole (getRoleARN [a, role]) = .ok () →
      be.userPages a = [.ok { users := [u], isTruncated := false }] →
      be.keyPages a u = .error e :: more →
      runApp [[a, role]] be =
        { result := .error (listKeysFatal e),
          remoteCalls := 3, fileCreated := false }) := by
  refine ⟨?_, ?_, ?_⟩
  · intro be a role e rest ha hrest hfail
    have hok : validateCSVAccountRoleData [a, role] = .ok () :=
      (validateCSV_ok_iff [a, role]).mpr (by simp [ha])
    have hval : validateAll ([a, role] :: rest) = .ok ([a, role] :: rest) :=
      validateAll_ok _ (by
        intro q hq
        rcases List.mem_cons.mp hq with h | h
        · rw [h, hok]
        · exact hrest q h)
    refine ⟨?_, ?_, ?_⟩
    · simp [runApp, hval, enumAccounts, hfail]
    · exact ⟨("arn:aws:iam::").data, (":role/" ++ role).data,
        by simp [getRoleARN, String.data_append]⟩
    · exact ⟨("arn:aws:iam::" ++ a ++ ":role/").data, [],
        by simp [getRoleARN, String.data_append]⟩
  · intro be a role e more rest ha hrest hassume hpages
    have hok : validateCSVAccountRoleData [a, role] = .ok () :=
      (validateCSV_ok_iff [a, role]).mpr (by simp [ha])
    have hval : validateAll ([a, role] :: rest) = .ok ([a, role] :: rest) :=
      validateAll_ok _ (by
        intro q hq
        rcases List.mem_cons.mp hq with h | h
        · rw [h, hok]
        · exact hrest q h)
    have hacc : getAccountId [a, role] = a := rfl
    simp [runApp, hval, enumAccounts, hassume, hacc, hpages, enumUsersPages]
  · intro be a role u e more ha hassume hpages hkeys
    have hok : validateCSVAccountRoleData [a, role] = .ok () :=
      (validateCSV_ok_iff [a, role]).mpr (by simp [ha])
    have hval : validateAll [[a, role]] = .ok [[a, role]] :=
      validateAll_ok _ (by intro q hq; simp at hq; rw [hq, hok])
    have hacc : getAccountId [a, role] = a := rfl
    simp [runApp, hval, enumAccounts, hassume, hacc, hpages, enumUsersPages,
      processItems, hkeys, workerKeysPages]

/-- A backend whose user listing fails, for the C7 counterexample and
witness. -/
def failingUsersBackend : Backend :=
  { assumeRole := fun _ => .ok (), userPages := fun _ => [.error "boom"],
    keyPages := fun _ _ => [] }

/-- Counterexample to C7 as stated: a user-listing failure terminates the
run with the fatal event `error when listing user` carrying only the
underlying error — neither the account identifier nor the role name occurs
anywhere in the message or its fields, so the message does not identify
the failing account/role context. -/
theorem c7_failure_escalation_cex :
    (runApp [["111111111111", "R1"]] failingUsersBackend).result =
      .error { msg := "error when listing user", fields := [("error", "boom")] } ∧
    ¬("111111111111".data <:+: "error when listing user".data) ∧
    ¬("111111111111".data <:+: "boom".data) ∧
    ¬("R1".data <:+: "error when listing user".data) ∧
    ¬("R1".data <:+: "boom".data) := by
  refine ⟨rfl, by decide, by decide, by decide, by decide⟩

/-- Witness for `c7_failure_escalation`, applying its user-listing part at
a concrete backend. -/
theorem c7_failure_escalation_witness :
    runApp [["111111111111", "R1"]] failingUsersBackend =
      { result := .error (listUsersFatal "boom"),
        remoteCalls := 2, fileCreated := false } :=
  c7_failure_escalation.2.1 failingUsersBackend "111111111111" "R1" "boom" [] []
    (by decide) (by intro r hr; cases hr) rfl rfl

/-- `pad2` of a number below 100 renders exactly two digit characters. -/
theorem pad2_spec : ∀ n : Nat, n < 100 →
    (pad2 n).length = 2 ∧ ((pad2 n).data.all Char.isDigit) = true := by decide

/-- The two digit characters of a `pad2` rendering, explicitly. -/
theorem pad2_data (n : Nat) (h : n < 100) :
    ∃ a b, (pad2 n).data = [a, b] ∧ a.isDigit = true ∧ b.isDigit = true := by
  obtain ⟨hl, hd⟩ := pad2_spec n h
  have hl2 : (pad2 n).data.length = 2 := hl
  obtain ⟨a, b, hab⟩ := List.length_eq_two.mp hl2
  rw [hab] at hd
  simp only [List.all_eq_true, List.mem_cons] at hd
  exact ⟨a, b, hab, hd a (by simp), hd b (by simp)⟩

/-- The fixed layout `2006-01-02T15:04:05-07:00` renders every in-range
time as an ISO-8601-with-offset shaped string. -/
theorem isoRender_wellShaped (t : GoTime) (h : validTime t) :
    isISO8601WithOffset (isoRender t) = true := by
  obtain ⟨hy, hmo, hda, hho, hmi, hse, hoh, hom⟩ := h
  obtain ⟨a1, a2, eA, dA1, dA2⟩ := pad2_data (t.year / 100) (by omega)
  obtain ⟨a3, a4, eB, dB1, dB2⟩ := pad2_data (t.year % 100) (Nat.mod_lt _ (by norm_num))
  obtain ⟨b1, b2, eC, dC1, dC2⟩ := pad2_data t.month hmo
  obtain ⟨c1, c2, eD, dD1, dD2⟩ := pad2_data t.day hda
  obtain ⟨d1, d2, eE, dE1, dE2⟩ := pad2_data t.hour hho
  obtain ⟨e1, e2, eF, dF1, dF2⟩ := pad2_data t.minute hmi
  obtain ⟨f1, f2, eG, dG1, dG2⟩ := pad2_data t.second hse
  obtain ⟨g1, g2, eH, dH1, dH2⟩ := pad2_data t.offH hoh
  obtain ⟨k1, k2, eK, dK1, dK2⟩ := pad2_data t.offM hom
  cases hsign : t.offNeg with
  | false =>
    have hdata : (isoRender t).data =
        [a1, a2, a3, a4, '-', b1, b2, '-', c1, c2, 'T', d1, d2, ':',
         e1, e2, ':', f1, f2, '+', g1, g2, ':', k1, k2] := by
      unfold isoRender pad4
      rw [hsign]
      simp only [String.data_append, eA, eB, eC, eD, eE, eF, eG, eH, eK,
        Bool.false_eq_true, if_false]
      rfl
    unfold isISO8601WithOffset
    rw [hdata]
    simp [dA1, dA2, dB1, dB2, dC1, dC2, dD1, dD2, dE1, dE2, dF1, dF2,
      dG1, dG2, dH1, dH2, dK1, dK2]
  | true =>
    have hdata : (isoRender t).data =
        [a1, a2, a3, a4, '-', b1, b2, '-', c1, c2, 'T', d1, d2, ':',
         e1, e2, ':', f1, f2, '-', g1, g2, ':', k1, k2] := by
      unfold isoRender pad4
      rw [hsign]
      simp only [String.data_append, eA, eB, eC, eD, eE, eF, eG, eH, eK,
        if_true]
      rfl
    unfold isISO8601WithOffset
    rw [hdata]
    simp [dA1, dA2, dB1, dB2, dC1, dC2, dD1, dD2, dE1, dE2, dF1, dF2,
      dG1, dG2, dH1, dH2, dK1, dK2]

/-- The canonical report is the mapped record of the found users. -/
theorem reportRows_eq_filterMap (kp : InputUser → List KeysPage)
    (items : List InputUser) :
    reportRows kp items = (items.filterMap (processUser kp)).map userRecord := by
  unfold reportRows writeRows workerRun
  rw [List.filterMap_map]
  rfl

/-- The CSV row of a found user spelled out over the raw key metadata. -/
theorem userRecord_of_metas (u : InputUser) (metas : List AccessKeyMeta) :
    userRecord { name := u.name, accountId := u.accountId,
                 accessKeys := metas.map convertKey } =
      [u.accountId, u.name] ++
        (metas.map (fun k => [k.accessKeyId, isoRender k.createDate])).flatten := by
  rw [userRecord]
  congr 2
  rw [List.map_map]
  rfl

/-- C6: the final report has exactly one row per user with at least one
access key — accountId, userName, then one (keyId, createdDate) pair per
key with the date rendered in ISO-8601-with-offset shape — and users with
zero keys produce no row and no error. -/
theorem c6_report_rows (kp : InputUser → List KeysPage) (items : List InputUser)
    (hwf : ∀ i ∈ items, goodChain (kp i))
    (hdates : ∀ i ∈ items, ∀ p ∈ kp i, ∀ k ∈ p.keys, validTime k.createDate) :
    reportRows kp items =
      (items.filter (fun i => !(((kp i).map KeysPage.keys).flatten.isEmpty))).map
        (fun i => [i.accountId, i.name] ++
          ((((kp i).map KeysPage.keys).flatten).map
            (fun k => [k.accessKeyId, isoRender k.createDate])).flatten) ∧
    (∀ i ∈ items, ((kp i).map KeysPage.keys).flatten = [] →
      processUser kp i = none) ∧
    (∀ i ∈ items, ∀ p ∈ kp i, ∀ k ∈ p.keys,
      isISO8601WithOffset (isoRender k.createDate) = true) := by
  refine ⟨?_, ?_, ?_⟩
  · induction items with
    | nil => rfl
    | cons i is ih =>
      have hloop := listAccessKeysLoop_of_goodChain (kp i) (hwf i (by simp))
      have hih := ih (fun q hq => hwf q (by simp [hq]))
        (fun q hq => hdates q (by simp [hq]))
      rw [reportRows_eq_filterMap] at hih ⊢
      by_cases hnil : ((kp i).map KeysPage.keys).flatten = []
      · have hnone : processUser kp i = none := by
          simp [processUser, hloop, hnil]
        simp only [List.filterMap_cons, hnone, List.filter_cons, hnil,
          List.isEmpty_nil, Bool.not_true, ite_false, if_neg,
          Bool.false_eq_true, not_false_eq_true]
        exact hih
      · have hsome : processUser kp i = some
            { name := i.name, accountId := i.accountId,
              accessKeys := (((kp i).map KeysPage.keys).flatten).map convertKey } := by
          simp [processUser, hloop, hnil]
        have hemp : (((kp i).map KeysPage.keys).flatten).isEmpty = false := by
          simp [List.isEmpty_iff, hnil]
        simp only [List.filterMap_cons, hsome, List.filter_cons, hemp,
          Bool.not_false, ite_true, if_pos, List.map_cons]
        rw [userRecord_of_metas i]
        exact congrArg _ hih
  · intro i hi hflat
    have hloop := listAccessKeysLoop_of_goodChain (kp i) (hwf i hi)
    simp [processUser, hloop, hflat]
  · intro i hi p hp k hk
    exact isoRender_wellShaped k.createDate (hdates i hi p hp k hk)

/-- A single-page single-key backend for the C6 witness. -/
def onePageBackend : InputUser → List KeysPage :=
  fun _ => [{ keys := [sampleKey1], isTruncated := false }]

/-- Witness for `c6_report_rows`: one user, one key, one page. -/
theorem c6_report_rows_witness :
    reportRows onePageBackend [sampleUser] =
      ([sampleUser].filter
        (fun i => !(((onePageBackend i).map KeysPage.keys).flatten.isEmpty))).map
        (fun i => [i.accountId, i.name] ++
          ((((onePageBackend i).map KeysPage.keys).flatten).map
            (fun k => [k.accessKeyId, isoRender k.createDate])).flatten) ∧
    (∀ i ∈ [sampleUser], ((onePageBackend i).map KeysPage.keys).flatten = [] →
      processUser onePageBackend i = none) ∧
    (∀ i ∈ [sampleUser], ∀ p ∈ onePageBackend i, ∀ k ∈ p.keys,
      isISO8601WithOffset (isoRender k.createDate) = true) :=
  c6_report_rows onePageBackend [sampleUser]
    (by
      intro i hi
      exact ⟨[], { keys := [sampleKey1], isTruncated := false }, rfl,
        by simp, rfl⟩)
    (by
      intro i hi p hp k hk
      simp [onePageBackend] at hp
      rw [hp] at hk
      simp at hk
      rw [hk]
      simp [sampleKey1, sampleTime, validTime])

/-! ## Pool invariants -/

/-- The inductive invariant of the worker-pool machine: the worker count is
fixed, the queue is closed only after the producer has sent everything, a
worker can be done only after closure, and every item is conserved across
producer, queue, in-flight workers and the processed list. -/
def PoolInv {ι : Type} [DecidableEq ι] (items : List ι) (W : Nat)
    (s : PoolState ι) : Prop :=
  s.workers.length = W ∧
  (s.closed = true → s.toSend = []) ∧
  (WStatus.done ∈ s.workers → s.closed = true) ∧
  (∀ x : ι, s.toSend.count x + s.queue.count x + (busyItems s.workers).count x +
      s.processed.count x = items.count x)

/-- No operation is in flight among freshly spawned idle workers. -/
theorem busyItems_replicate_idle {ι : Type} (W : Nat) :
    busyItems (List.replicate W (WStatus.idle : WStatus ι)) = [] := by
  induction W with
  | zero => rfl
  | succ n ih =>
    rw [List.replicate_succ]
    simp only [busyItems, List.filterMap_cons, statusItem]
    exact ih

/-- The invariant holds initially. -/
theorem PoolInv_init {ι : Type} [DecidableEq ι] (items : List ι) (W : Nat) :
    PoolInv items W (initPool ι items W) := by
  refine ⟨by simp [initPool], ?_, ?_, ?_⟩
  · intro h
    simp [initPool] at h
  · intro h
    have := List.eq_of_mem_replicate h
    cases this
  · intro x
    simp [initPool, busyItems_replicate_idle]

/-- Every step of the machine preserves the invariant. -/
theorem PoolInv_step {ι : Type} [DecidableEq ι] (items : List ι) (W : Nat)
    (s s2 : PoolState ι) (hstep : PoolStep ι s s2) (hinv : PoolInv items W s) :
    PoolInv items W s2 := by
  obtain ⟨hlen, hclosed, hdone, hcount⟩ := hinv
  cases hstep with
  | send i rest hts =>
    refine ⟨hlen, ?_, hdone, ?_⟩
    · intro hc
      have h2 := hclosed hc
      rw [hts] at h2
      cases h2
    · intro x
      have hx := hcount x
      rw [hts] at hx
      by_cases hxi : x = i <;>
        simp only [List.count_cons, List.count_append, List.count_nil,
          List.count_singleton, hxi, if_pos, if_neg, ne_eq,
          not_false_eq_true] at hx ⊢ <;> omega
  | close hts hcl =>
    exact ⟨hlen, fun _ => hts, fun _ => rfl, hcount⟩
  | take pre post i q hw hq =>
    have hbusy : busyItems (pre ++ WStatus.busy i :: post) =
        busyItems pre ++ i :: busyItems post := by
      simp [busyItems, List.filterMap_append, List.filterMap_cons, statusItem]
    have hbusy0 : busyItems (pre ++ WStatus.idle :: post) =
        busyItems pre ++ busyItems post := by
      simp [busyItems, List.filterMap_append, List.filterMap_cons, statusItem]
    refine ⟨?_, hclosed, ?_, ?_⟩
    · rw [← hlen, hw]
      simp
    · intro hmem
      apply hdone
      rw [hw]
      simp only [List.mem_append, List.mem_cons] at hmem ⊢
      rcases hmem with h | h | h
      · exact Or.inl h
      · cases h
      · exact Or.inr (Or.inr h)
    · intro x
      have hx := hcount x
      rw [hw, hbusy0] at hx
      rw [hq] at hx
      by_cases hxi : x = i <;>
        simp only [hbusy, List.count_cons, List.count_append, hxi, if_pos,
          if_neg, ne_eq, not_false_eq_true] at hx ⊢ <;> omega
  | finish pre post i hw =>
    have hbusy : busyItems (pre ++ WStatus.busy i :: post) =
        busyItems pre ++ i :: busyItems post := by
      simp [busyItems, List.filterMap_append, List.filterMap_cons, statusItem]
    have hbusy0 : busyItems (pre ++ WStatus.idle :: post) =
        busyItems pre ++ busyItems post := by
      simp [busyItems, List.filterMap_append, List.filterMap_cons, statusItem]
    refine ⟨?_, hclosed, ?_, ?_⟩
    · rw [← hlen, hw]
      simp
    · intro hmem
      apply hdone
      rw [hw]
      simp only [List.mem_append, List.mem_cons] at hmem ⊢
      rcases hmem with h | h | h
      · exact Or.inl h
      · cases h
      · exact Or.inr (Or.inr h)
    · intro x
      have hx := hcount x
      rw [hw, hbusy] at hx
      by_cases hxi : x = i <;>
        simp only [hbusy0, List.count_cons, List.count_append, List.count_nil,
          List.count_singleton, hxi, if_pos, if_neg, ne_eq,
          not_false_eq_true] at hx ⊢ <;> omega
  | exit pre post hw hcl hq =>
    have hbusy : busyItems (pre ++ WStatus.done :: post) =
        busyItems pre ++ busyItems post := by
      simp [busyItems, List.filterMap_append, List.filterMap_cons, statusItem]
    have hbusy0 : busyItems (pre ++ WStatus.idle :: post) =
        busyItems pre ++ busyItems post := by
      simp [busyItems, List.filterMap_append, List.filterMap_cons, statusItem]
    refine ⟨?_, hclosed, fun _ => hcl, ?_⟩
    · rw [← hlen, hw]
      simp
    · intro x
      have hx := hcount x
      rw [hw, hbusy0] at hx
      rw [hbusy]
      exact hx

/-- The invariant holds in every reachable state. -/
theorem PoolInv_reachable {ι : Type} [DecidableEq ι] (items : List ι) (W : Nat)
    (s : PoolState ι) (h : PoolReachable ι items W s) : PoolInv items W s := by
  induction h with
  | refl => exact PoolInv_init items W
  | tail hsteps hstep ih => exact PoolInv_step items W _ _ hstep ih

/-- C8: in every reachable state of the pool, at most `W` key-listing
operations are in flight regardless of the number of submitted items; a
worker observes closure as its exit signal only after the queue has been
fully populated (everything sent) and closed; and no item is processed
more often than it was submitted (single-consumer pull model). -/
theorem c8_bounded_pool (items : List InputUser) (W : Nat)
    (s : PoolState InputUser) (h : PoolReachable InputUser items W s) :
    busyCount s ≤ W ∧
    (WStatus.done ∈ s.workers → s.closed = true ∧ s.toSend = []) ∧
    (∀ x : InputUser, s.processed.count x ≤ items.count x) := by
  obtain ⟨hlen, hclosed, hdone, hcount⟩ := PoolInv_reachable items W s h
  refine ⟨?_, ?_, ?_⟩
  · calc busyCount s ≤ s.workers.length := List.length_filterMap_le _ _
      _ = W := hlen
  · intro hd
    have hc := hdone hd
    exact ⟨hc, hclosed hc⟩
  · intro x
    have hx := hcount x
    omega

/-- Witness for `c8_bounded_pool` at the initial state for one item and
two workers. -/
theorem c8_bounded_pool_witness :
    busyCount (initPool InputUser [sampleUser] 2) ≤ 2 ∧
    (WStatus.done ∈ (initPool InputUser [sampleUser] 2).workers →
      (initPool InputUser [sampleUser] 2).closed = true ∧
      (initPool InputUser [sampleUser] 2).toSend = []) ∧
    (∀ x : InputUser,
      ((initPool InputUser [sampleUser] 2).processed).count x ≤
        [sampleUser].count x) :=
  c8_bounded_pool [sampleUser] 2 (initPool InputUser [sampleUser] 2)
    Relation.ReflTransGen.refl

end AccessKeyLister
